import Mathlib

/-!
Verification of the go-ceph client library (package `ceph`).

The development shallowly embeds the parts of the source that the claims
are about:

* `auth.go` — the canonical-string signing algorithm (`Signature`,
  `QsaOfInterest`, `Hashmac`), together with the pieces of the Go standard
  library it relies on (`net/url.ParseQuery`, `crypto/sha1`, `crypto/hmac`,
  `encoding/base64`).
* `obj.go` — the upload coordinator select loop, the writer goroutine of
  `PutObjRequest.Do`, and `GetObjRequest.save`.
* `utils.go` — `GMTime`.

Go byte strings are modelled as Lean `String`s (all the constants involved
are ASCII, where Go bytes and Lean characters coincide) or as `List Nat`
of byte values where raw bytes flow (hashes, the socket stream).
-/

namespace Ceph

/-! ### Basic string helpers (Go `strings` package) -/

/-- Model of `strings.ToLower` restricted to ASCII.  Every header name the
code lowercases is ASCII, where Go's Unicode lowering agrees with this. -/
def lowerChar (c : Char) : Char :=
  if 'A' ≤ c ∧ c ≤ 'Z' then Char.ofNat (c.toNat + 32) else c

/-- Model of `strings.ToLower` on a whole string (ASCII fragment). -/
def lowerStr (s : String) : String := ⟨s.data.map lowerChar⟩

/-- Model of `strings.Join(v, " ")`, used by `Signature` on header values. -/
def joinSpace (vs : List String) : String := String.intercalate " " vs

/-- Model of `strings.Trim(s, "\"")`: drop every leading and trailing
double-quote character (used on the `ETag` response header). -/
def trimQuotes (s : String) : String :=
  ⟨(((s.data.dropWhile (· = '"')).reverse.dropWhile (· = '"')).reverse)⟩

/-- UTF-8 encoding of one scalar value (Go strings are UTF-8 byte
sequences; this is the standard encoding). -/
def utf8Bytes (c : Char) : List Nat :=
  let n := c.toNat
  if n < 128 then [n]
  else if n < 2048 then [192 + n / 64, 128 + n % 64]
  else if n < 65536 then [224 + n / 4096, 128 + (n / 64) % 64, 128 + n % 64]
  else [240 + n / 262144, 128 + (n / 4096) % 64, 128 + (n / 64) % 64,
    128 + n % 64]

/-- Bytes of a string, as Go's `[]byte(s)` conversion (UTF-8). -/
def strBytes (s : String) : List Nat := s.data.flatMap utf8Bytes

/-! ### Lexicographic string comparison (Go `s1 < s2`, `sort.Strings`)

Go compares strings bytewise-lexicographically; on the ASCII data involved
this coincides with comparison of the character lists.  The comparison is
defined as an executable Boolean so that concrete instances reduce in the
kernel. -/

/-- Lexicographic `≤` on character lists. -/
def leChars : List Char → List Char → Bool
  | [], _ => true
  | _ :: _, [] => false
  | a :: as, b :: bs => if a < b then true else if b < a then false else leChars as bs

/-- Lexicographic `≤` on strings (the order `sort.Strings` sorts by). -/
def strLe (a b : String) : Bool := leChars a.data b.data

/-- The same order as a proposition, for use with `List.insertionSort`. -/
def strLeR (a b : String) : Prop := strLe a b = true

instance : DecidableRel strLeR := fun a b => inferInstanceAs (Decidable (_ = true))

theorem leChars_total : ∀ as bs, leChars as bs = true ∨ leChars bs as = true := by
  intro as
  induction as with
  | nil => intro bs; left; rfl
  | cons a as ih =>
    intro bs
    cases bs with
    | nil => right; rfl
    | cons b bs =>
      rcases lt_trichotomy a b with h | h | h
      · left; simp [leChars, h]
      · subst h
        simpa [leChars, lt_irrefl] using ih bs
      · right; simp [leChars, h]

theorem leChars_trans : ∀ as bs cs, leChars as bs = true → leChars bs cs = true →
    leChars as cs = true := by
  intro as
  induction as with
  | nil => intro bs cs _ _; rfl
  | cons a as ih =>
    intro bs cs h1 h2
    cases bs with
    | nil => simp [leChars] at h1
    | cons b bs =>
      cases cs with
      | nil => simp [leChars] at h2
      | cons c cs =>
        rcases lt_trichotomy a b with hab | hab | hab
        · rcases lt_trichotomy b c with hbc | hbc | hbc
          · simp [leChars, lt_trans hab hbc]
          · subst hbc; simp [leChars, hab]
          · simp [leChars, hbc, asymm hbc] at h2
        · subst hab
          rcases lt_trichotomy a c with hac | hac | hac
          · simp [leChars, hac]
          · subst hac
            simp only [leChars, lt_irrefl, if_false] at h1 h2 ⊢
            exact ih bs cs h1 h2
          · simp [leChars, hac, asymm hac] at h2
        · simp [leChars, hab, asymm hab] at h1

theorem leChars_antisymm : ∀ as bs, leChars as bs = true → leChars bs as = true →
    as = bs := by
  intro as
  induction as with
  | nil =>
    intro bs _ h2
    cases bs with
    | nil => rfl
    | cons b bs => simp [leChars] at h2
  | cons a as ih =>
    intro bs h1 h2
    cases bs with
    | nil => simp [leChars] at h1
    | cons b bs =>
      rcases lt_trichotomy a b with hab | hab | hab
      · simp [leChars, hab, asymm hab] at h2
      · subst hab
        simp only [leChars, lt_irrefl, if_false] at h1 h2
        rw [ih bs h1 h2]
      · simp [leChars, hab, asymm hab] at h1

instance : IsTotal String strLeR := ⟨fun a b => leChars_total a.data b.data⟩

instance : IsTrans String strLeR :=
  ⟨fun a b c h1 h2 => leChars_trans a.data b.data c.data h1 h2⟩

instance : IsAntisymm String strLeR :=
  ⟨fun a b h1 h2 => by
    cases a; cases b
    exact congrArg String.mk (leChars_antisymm _ _ h1 h2)⟩

/-- Model of `sort.Strings`: sort ascending in the lexicographic order
(any correct sort yields this list, since the order is antisymmetric). -/
def sortStrings (l : List String) : List String := List.insertionSort strLeR l

/-! ### SHA-1, HMAC and base64 (Go `crypto/sha1`, `crypto/hmac`,
`encoding/base64`), the collaborators of `Hashmac` in `auth.go`.
Machine 32-bit words are `Nat` reduced modulo `2^32`. -/

/-- Reduce modulo `2^32`, the word size of SHA-1. -/
def u32 (n : Nat) : Nat := n % 4294967296

/-- Rotate a 32-bit word left by `s` bits. -/
def rotl32 (x s : Nat) : Nat := u32 (x * 2 ^ s) + x / 2 ^ (32 - s)

/-- Bitwise complement of a 32-bit word. -/
def not32 (x : Nat) : Nat := 4294967295 - x

/-- Big-endian bytes of a 64-bit quantity (the SHA-1 length trailer). -/
def be64 (n : Nat) : List Nat :=
  [n / 2 ^ 56, n / 2 ^ 48, n / 2 ^ 40, n / 2 ^ 32,
   n / 2 ^ 24, n / 2 ^ 16, n / 2 ^ 8, n].map (· % 256)

/-- Big-endian bytes of a 32-bit word. -/
def be32 (n : Nat) : List Nat := [n / 2 ^ 24, n / 2 ^ 16, n / 2 ^ 8, n].map (· % 256)

/-- SHA-1 padding: append `0x80`, zeros to 56 mod 64, then the bit length. -/
def sha1Pad (msg : List Nat) : List Nat :=
  msg ++ [128] ++ List.replicate ((64 + 56 - (msg.length + 1) % 64) % 64) 0
      ++ be64 (8 * msg.length)

/-- Split a byte list into blocks of `n` bytes (empty for block size 0). -/
def blocksOf : Nat → List Nat → List (List Nat)
  | _, [] => []
  | 0, _ :: _ => []
  | n + 1, a :: t => (a :: t).take (n + 1) :: blocksOf (n + 1) ((a :: t).drop (n + 1))
termination_by _ l => l.length
decreasing_by
  simp [List.length_drop]
  omega

/-- Combine four bytes into one big-endian 32-bit word. -/
def word32 (bs : List Nat) : Nat :=
  bs.getD 0 0 * 2 ^ 24 + bs.getD 1 0 * 2 ^ 16 + bs.getD 2 0 * 2 ^ 8 + bs.getD 3 0

/-- The sixteen 32-bit words of one 64-byte SHA-1 block. -/
def blockWords (block : List Nat) : List Nat := (blocksOf 4 block).map word32

/-- Message-schedule expansion of a SHA-1 block from 16 to 80 words. -/
def extendWords (w : List Nat) : List Nat :=
  (List.range 64).foldl
    (fun w _ =>
      let n := w.length
      w ++ [rotl32 (Nat.xor (Nat.xor (w.getD (n - 3) 0) (w.getD (n - 8) 0))
                     (Nat.xor (w.getD (n - 14) 0) (w.getD (n - 16) 0))) 1])
    w

/-- One SHA-1 round: round index `i`, state `(a,b,c,d,e)`, schedule word. -/
def sha1Round (i : Nat) (st : Nat × Nat × Nat × Nat × Nat) (wi : Nat) :
    Nat × Nat × Nat × Nat × Nat :=
  let (a, b, c, d, e) := st
  let f :=
    if i < 20 then Nat.lor (Nat.land b c) (Nat.land (not32 b) d)
    else if i < 40 then Nat.xor (Nat.xor b c) d
    else if i < 60 then Nat.lor (Nat.lor (Nat.land b c) (Nat.land b d)) (Nat.land c d)
    else Nat.xor (Nat.xor b c) d
  let k :=
    if i < 20 then 1518500249
    else if i < 40 then 1859775393
    else if i < 60 then 2400959708
    else 3395469782
  let temp := u32 (rotl32 a 5 + f + e + k + wi)
  (temp, a, rotl32 b 30, c, d)

/-- SHA-1 compression of one block into the running state. -/
def sha1Compress (h : Nat × Nat × Nat × Nat × Nat) (block : List Nat) :
    Nat × Nat × Nat × Nat × Nat :=
  let ws := extendWords (blockWords block)
  let (a, b, c, d, e) :=
    (ws.enum.foldl (fun st p => sha1Round p.1 st p.2) h)
  (u32 (h.1 + a), u32 (h.2.1 + b), u32 (h.2.2.1 + c), u32 (h.2.2.2.1 + d),
   u32 (h.2.2.2.2 + e))

/-- SHA-1 digest of a byte list, as Go `crypto/sha1.Sum`. -/
def sha1 (msg : List Nat) : List Nat :=
  let st := (blocksOf 64 (sha1Pad msg)).foldl sha1Compress
    (1732584193, 4023233417, 2562383102, 271733878, 3285377520)
  be32 st.1 ++ be32 st.2.1 ++ be32 st.2.2.1 ++ be32 st.2.2.2.1 ++ be32 st.2.2.2.2

/-- Model of `Hashmac` from `auth.go`: HMAC-SHA1 of `msg` under `key`
(per Go `crypto/hmac`: long keys are hashed, short keys zero-padded to the
64-byte block, then inner/outer pads 0x36/0x5c). -/
def Hashmac (msg key : List Nat) : List Nat :=
  let k0 := if 64 < key.length then sha1 key else key
  let k := k0 ++ List.replicate (64 - k0.length) 0
  sha1 ((k.map (Nat.xor · 92)) ++ sha1 ((k.map (Nat.xor · 54)) ++ msg))

/-- The base64 standard alphabet (Go `encoding/base64.StdEncoding`). -/
def b64Table : List Char :=
  "ABCDEFGHIJKLMNOPQRSTUVWXYZabcdefghijklmnopqrstuvwxyz0123456789+/".data

/-- Character of a 6-bit group. -/
def b64Char (n : Nat) : Char := b64Table.getD n 'A'

/-- Base64 standard encoding with padding, as
`base64.StdEncoding.EncodeToString`. -/
def base64Encode : List Nat → String
  | [] => ""
  | [b1] =>
    ⟨[b64Char (b1 / 4), b64Char (b1 % 4 * 16), '=', '=']⟩
  | [b1, b2] =>
    ⟨[b64Char (b1 / 4), b64Char (b1 % 4 * 16 + b2 / 16), b64Char (b2 % 16 * 4), '=']⟩
  | b1 :: b2 :: b3 :: rest =>
    (⟨[b64Char (b1 / 4), b64Char (b1 % 4 * 16 + b2 / 16),
       b64Char (b2 % 16 * 4 + b3 / 64), b64Char (b3 % 64)]⟩ : String)
      ++ base64Encode rest

/-! ### Query parsing (Go `net/url.ParseQuery`, used via `r.URL.Query()`)

`Signature` reads the request's query through `url.Query()`, i.e.
`net/url.ParseQuery`, which returns a `url.Values` — a map from name to the
list of values, in which a segment without `=` contributes the empty string
as its value.  The map is modelled as an association list with distinct
keys built in first-appearance order (Go map iteration order is arbitrary;
the only iteration the code performs is followed by a sort, so the list
order is immaterial). -/

/-- Value of an ASCII hex digit, `none` otherwise (Go `unhex`). -/
def hexVal (c : Char) : Option Nat :=
  if '0' ≤ c ∧ c ≤ '9' then some (c.toNat - 48)
  else if 'a' ≤ c ∧ c ≤ 'f' then some (c.toNat - 87)
  else if 'A' ≤ c ∧ c ≤ 'F' then some (c.toNat - 55)
  else none

/-- Model of `url.QueryUnescape`: `+` becomes space, `%XX` is hex-decoded,
a malformed escape is an error (`none`). -/
def unescapeChars : List Char → Option (List Char)
  | [] => some []
  | '%' :: c1 :: c2 :: rest =>
    match hexVal c1, hexVal c2 with
    | some hi, some lo => (unescapeChars rest).map (Char.ofNat (16 * hi + lo) :: ·)
    | _, _ => none
  | '%' :: _ => none
  | '+' :: rest => (unescapeChars rest).map (' ' :: ·)
  | c :: rest => (unescapeChars rest).map (c :: ·)

/-- Segments of a query string between `&` separators.  Matches the
`strings.Cut(query, "&")` loop of `ParseQuery`: an empty query yields no
segment, and empty segments (also produced by leading, trailing or doubled
separators) are later skipped. -/
def goQuerySegs : List Char → List (List Char)
  | [] => []
  | '&' :: rest => [] :: goQuerySegs rest
  | c :: rest =>
    match goQuerySegs rest with
    | [] => [[c]]
    | seg :: segs => (c :: seg) :: segs

/-- A parsed query: name to list of values, distinct names. -/
abbrev QVals := List (String × List String)

/-- Model of `m[key] = append(m[key], value)` on a `url.Values`. -/
def qAppend (m : QVals) (k v : String) : QVals :=
  if m.any (·.1 = k) then
    m.map (fun p => if p.1 = k then (p.1, p.2 ++ [v]) else p)
  else m ++ [(k, [v])]

/-- One iteration of the `ParseQuery` loop on segment `seg`: skip an empty
segment or one containing `;`, cut at the first `=` (a missing `=` gives
the empty value), unescape name and value (skipping the pair on error),
and append. -/
def parseSeg (m : QVals) (seg : List Char) : QVals :=
  if seg = [] then m
  else if seg.contains ';' then m
  else
    let k := seg.takeWhile (· ≠ '=')
    let rest := seg.dropWhile (· ≠ '=')
    let v : List Char := match rest with | [] => [] | _ :: t => t
    match unescapeChars k, unescapeChars v with
    | some k1, some v1 => qAppend m ⟨k1⟩ ⟨v1⟩
    | _, _ => m

/-- Model of `url.ParseQuery` (as consumed through `url.Query()`, which
drops the error and keeps the partially filled map). -/
def parseQuery (s : String) : QVals := (goQuerySegs s.data).foldl parseSeg []

/-- Lookup `query[k]` on a parsed query (`nil`, i.e. `[]`, when absent). -/
def getQ (m : QVals) (k : String) : List String :=
  match m.find? (·.1 = k) with
  | some p => p.2
  | none => []

/-! ### The canonical signer (`auth.go`) -/

/-- The fixed allow-list `QsaOfInterest` built by `init()` in `auth.go`
(a set; modelled as the list of its members). -/
def QsaOfInterest : List String :=
  ["acl", "cors", "defaultObjectAcl", "location", "logging", "partNumber",
   "policy", "requestPayment", "torrent", "versioning", "versions",
   "website", "uploads", "uploadId", "response-content-type",
   "response-content-language", "response-expires",
   "response-cache-control", "response-content-disposition",
   "response-content-encoding", "delete", "lifecycle", "tagging", "restore",
   "storageClass", "websiteConfig", "compose"]

/-- The `newQuerySlice` built by `Signature`: keep the query names found in
`QsaOfInterest`, sort them (`sort.Strings`; modelled by insertion sort,
which produces the same ascending list), then emit a name with an empty
value list bare and otherwise once per value as `name=value`. -/
def canonicalQueryEntries (q : QVals) : List String :=
  let sortedQuery :=
    sortStrings ((q.map (·.1)).filter (fun k => QsaOfInterest.contains k))
  sortedQuery.foldl
    (fun acc k =>
      let queryVal := getQ q k
      if queryVal.length ≤ 0 then acc ++ [k]
      else acc ++ queryVal.map (fun v => k ++ "=" ++ v)) []

/-- The query suffix of the canonical string: `?` plus the entries joined
by `&` when any entry survived, empty otherwise. -/
def canonicalQuerySuffix (q : QVals) : String :=
  let entries := canonicalQueryEntries q
  if 0 < entries.length then "?" ++ String.intercalate "&" entries else ""

/-! ### Canonical header part of `Signature`

The Go code walks `r.Header` (a map from canonical MIME key to value
list), keeps the three lowercased names `date`, `content-type`,
`content-md5` in `h` (a map) and `sortedKeys`, adds the missing ones with
empty values, sorts the names and concatenates the values.  The header map
is modelled as an association list of (key, values); the inner map `h` as
a function `String → Option String`. -/

/-- Request headers: key to value list, as Go `http.Header`. -/
abbrev Headers := List (String × List String)

/-- Whether a lowercased key is one of the three signed headers (the
`switch lowerKey` in `Signature`). -/
def relKey (k : String) : Bool :=
  k == "date" || k == "content-type" || k == "content-md5"

/-- One iteration of the header-collection loop of `Signature`:
`h[lowerKey] = strings.Join(v, " "); sortedKeys = append(...)` for a
relevant key, skip otherwise. -/
def collectStep (acc : (String → Option String) × List String)
    (kv : String × List String) : (String → Option String) × List String :=
  let lk := lowerStr kv.1
  if relKey lk then
    (fun k => if k = lk then some (joinSpace kv.2) else acc.1 k, acc.2 ++ [lk])
  else acc

/-- The header-collection loop of `Signature` over the whole header map. -/
def collectH (hs : Headers) : (String → Option String) × List String :=
  hs.foldl collectStep (fun _ => none, [])

/-- One `if _, ok := h[n]; !ok { h[n] = ""; sortedKeys = append(...) }`
block of `Signature`. -/
def addOne (p : (String → Option String) × List String) (n : String) :
    (String → Option String) × List String :=
  if (p.1 n).isSome then p
  else (fun k => if k = n then some "" else p.1 k, p.2 ++ [n])

/-- The three blocks of `Signature` that add the missing signed headers
with empty values (in source order: `date`, `content-md5`,
`content-type`). -/
def addMissing (p : (String → Option String) × List String) :
    (String → Option String) × List String :=
  addOne (addOne (addOne p "date") "content-md5") "content-type"

/-- The part `canonical := r.Method + "\n"; for _, k := range sortedKeys {
canonical += h[k] + "\n" }` of `Signature` (`h[k]` on a Go map is `""`
when absent). -/
def canonicalHeaderPart (method : String) (hs : Headers) : String :=
  (sortStrings (addMissing (collectH hs)).2).foldl
    (fun acc k => acc ++ ((addMissing (collectH hs)).1 k).getD "" ++ "\n")
    (method ++ "\n")

/-- The full canonical string of `Signature`, with the query already
parsed (the source obtains it as `r.URL.Query()`). -/
def canonicalStringQ (method : String) (hs : Headers) (path : String)
    (q : QVals) : String :=
  canonicalHeaderPart method hs ++ path ++ canonicalQuerySuffix q

/-- The canonical string of `Signature` from the raw query string. -/
def canonicalString (method : String) (hs : Headers) (path rawQuery : String) :
    String :=
  canonicalStringQ method hs path (parseQuery rawQuery)

/-- Model of `Signature(secretKey, r)` from `auth.go`, with the request
given as method, header map, URL path and raw query:
`base64(HMAC-SHA1(secretKey, canonical))`, factored through the parsed
query. -/
def SignatureQ (secretKey method : String) (hs : Headers) (path : String)
    (q : QVals) : String :=
  base64Encode (Hashmac (strBytes (canonicalStringQ method hs path q))
    (strBytes secretKey))

/-- Model of `Signature(secretKey, r)` from `auth.go` on the raw query. -/
def Signature (secretKey method : String) (hs : Headers)
    (path rawQuery : String) : String :=
  SignatureQ secretKey method hs path (parseQuery rawQuery)

/-! ### Lemmas about the parsed query -/

theorem qAppend_vals_ne_nil {m : QVals} {k v : String}
    (hm : ∀ p ∈ m, p.2 ≠ []) : ∀ p ∈ qAppend m k v, p.2 ≠ [] := by
  intro p hp
  unfold qAppend at hp
  by_cases h : m.any (·.1 = k)
  · simp only [h, if_pos] at hp
    rcases List.mem_map.mp hp with ⟨q, hq, hqe⟩
    by_cases hk : q.1 = k
    · simp only [hk, if_pos] at hqe
      subst hqe
      simp
    · simp only [hk, if_neg, if_false] at hqe
      subst hqe
      exact hm q hq
  · simp only [h, if_neg, Bool.false_eq_true, not_false_iff, if_false,
      List.mem_append] at hp
    rcases hp with hp | hp
    · exact hm p hp
    · simp only [List.mem_singleton] at hp
      subst hp
      simp

theorem parseSeg_vals_ne_nil {m : QVals} {seg : List Char}
    (hm : ∀ p ∈ m, p.2 ≠ []) : ∀ p ∈ parseSeg m seg, p.2 ≠ [] := by
  unfold parseSeg
  split
  · exact hm
  · split
    · exact hm
    · dsimp only
      split
      · exact qAppend_vals_ne_nil hm
      · exact hm

theorem parseQuery_vals_ne_nil (s : String) :
    ∀ p ∈ parseQuery s, p.2 ≠ [] := by
  unfold parseQuery
  generalize goQuerySegs s.data = segs
  have h : ∀ (segs : List (List Char)) (m : QVals),
      (∀ p ∈ m, p.2 ≠ []) → ∀ p ∈ segs.foldl parseSeg m, p.2 ≠ [] := by
    intro segs
    induction segs with
    | nil => intro m hm; simpa using hm
    | cons seg rest ih =>
      intro m hm
      simpa using ih (parseSeg m seg) (parseSeg_vals_ne_nil hm)
  exact h segs [] (by simp)

theorem getQ_ne_nil {q : QVals} {k : String} (hk : k ∈ q.map (·.1))
    (hq : ∀ p ∈ q, p.2 ≠ []) : getQ q k ≠ [] := by
  rcases List.mem_map.mp hk with ⟨p, hp, hpk⟩
  have hsome : (q.find? (·.1 = k)).isSome := by
    rw [List.find?_isSome]
    exact ⟨p, hp, by simp [hpk]⟩
  rcases Option.isSome_iff_exists.mp hsome with ⟨r, hr⟩
  have hrq : r ∈ q := List.mem_of_find?_eq_some hr
  unfold getQ
  rw [hr]
  exact hq r hrq

theorem foldl_append_eq_flatMap {α β : Type} (g : α → List β) :
    ∀ (l : List α) (acc : List β),
      l.foldl (fun a k => a ++ g k) acc = acc ++ l.flatMap g := by
  intro l
  induction l with
  | nil => simp
  | cons x xs ih => intro acc; simp [ih, List.append_assoc]

theorem flatMap_congr_mem {α β : Type} {l : List α} {f g : α → List β}
    (h : ∀ a ∈ l, f a = g a) : l.flatMap f = l.flatMap g := by
  induction l with
  | nil => rfl
  | cons x xs ih =>
    simp only [List.flatMap_cons]
    rw [h x (by simp), ih (fun a ha => h a (List.mem_cons_of_mem _ ha))]

/-- The sorted, allow-listed name list the canonicalization emits from. -/
def canonicalNames (q : QVals) : List String :=
  sortStrings ((q.map (·.1)).filter (fun k => QsaOfInterest.contains k))

theorem canonicalQueryEntries_eq_flatMap_if (q : QVals) :
    canonicalQueryEntries q =
      (canonicalNames q).flatMap
        (fun k => if (getQ q k).length ≤ 0 then [k]
          else (getQ q k).map (fun v => k ++ "=" ++ v)) := by
  unfold canonicalQueryEntries
  have hfun : (fun (acc : List String) (k : String) =>
      let queryVal := getQ q k
      if queryVal.length ≤ 0 then acc ++ [k]
      else acc ++ queryVal.map (fun v => k ++ "=" ++ v)) =
      (fun acc k => acc ++ (if (getQ q k).length ≤ 0 then [k]
        else (getQ q k).map (fun v => k ++ "=" ++ v))) := by
    funext acc k
    by_cases h : (getQ q k).length ≤ 0 <;> simp [h]
  rw [hfun, foldl_append_eq_flatMap, List.nil_append]
  rfl

theorem canonicalQueryEntries_eq_flatMap (q : QVals)
    (hq : ∀ p ∈ q, p.2 ≠ []) :
    canonicalQueryEntries q =
      (canonicalNames q).flatMap (fun k => (getQ q k).map (fun v => k ++ "=" ++ v)) := by
  rw [canonicalQueryEntries_eq_flatMap_if]
  apply flatMap_congr_mem
  intro k hk
  have hkq : k ∈ q.map (·.1) := by
    have := (List.mem_insertionSort strLeR).mp hk
    exact (List.mem_filter.mp this).1
  have hne : getQ q k ≠ [] := getQ_ne_nil hkq hq
  have : ¬ (getQ q k).length ≤ 0 := by
    simpa [List.length_eq_zero] using hne
  simp [this]

/-- C1, amended part: names in the canonical query are exactly the sorted
allow-listed parsed names, and membership facts. -/
theorem canonicalNames_sorted (q : QVals) :
    (canonicalNames q).Sorted strLeR :=
  List.sorted_insertionSort strLeR _

theorem canonicalNames_mem_qsa {q : QVals} {k : String}
    (hk : k ∈ canonicalNames q) : k ∈ QsaOfInterest := by
  have := (List.mem_insertionSort strLeR).mp hk
  have hc := (List.mem_filter.mp this).2
  simpa using hc

/-! ### Claim C1 -/

/-- Claim C1, counterexample to the claim as stated: the query
`foo=1&acl&uploadId=7` does not canonicalize to `acl&uploadId=7`.
`url.Query()` parses the bare segment `acl` as the name `acl` with the
single value `""`, so the code emits `acl=`, never the bare name. -/
theorem claim_C1_counterexample :
    String.intercalate "&"
      (canonicalQueryEntries (parseQuery "foo=1&acl&uploadId=7")) ≠
      "acl&uploadId=7" := by decide

/-- Claim C1, amended: for every query string the canonicalization keeps
exactly the allow-listed names, sorted lexicographically, and emits each
retained name once per parsed value as `name=value`, preserving value
order.  A name given without `=` parses as a single empty value, so it is
emitted as `name=` and the bare-name branch never fires; in particular
`foo=1&acl&uploadId=7` canonicalizes to `acl=&uploadId=7`. -/
theorem claim_C1 (s : String) :
    canonicalQueryEntries (parseQuery s) =
      (canonicalNames (parseQuery s)).flatMap
        (fun k => (getQ (parseQuery s) k).map (fun v => k ++ "=" ++ v))
    ∧ (canonicalNames (parseQuery s)).Sorted strLeR
    ∧ (∀ k ∈ canonicalNames (parseQuery s), k ∈ QsaOfInterest)
    ∧ (∀ p ∈ parseQuery s, p.2 ≠ [])
    ∧ String.intercalate "&"
        (canonicalQueryEntries (parseQuery "foo=1&acl&uploadId=7")) =
        "acl=&uploadId=7" := by
  refine ⟨canonicalQueryEntries_eq_flatMap _ (parseQuery_vals_ne_nil s),
    canonicalNames_sorted _, fun k hk => canonicalNames_mem_qsa hk,
    parseQuery_vals_ne_nil s, by decide⟩

/-- Claim C1, witness: the amended theorem applied at the concrete query
of the claim. -/
theorem claim_C1_witness :
    canonicalQueryEntries (parseQuery "foo=1&acl&uploadId=7") =
      (canonicalNames (parseQuery "foo=1&acl&uploadId=7")).flatMap
        (fun k => (getQ (parseQuery "foo=1&acl&uploadId=7") k).map
          (fun v => k ++ "=" ++ v))
    ∧ "acl" ∈ QsaOfInterest :=
  ⟨(claim_C1 "foo=1&acl&uploadId=7").1,
    (claim_C1 "foo=1&acl&uploadId=7").2.2.1 "acl" (by decide)⟩

/-! ### Claim C7: determinism and query-parameter sensitivity -/

/-- Setting parameter `k` of a parsed query to the values `vs` (replacing
its values when present, adding it otherwise) — the "change one query
parameter" operation of claim C7. -/
def updateQ (q : QVals) (k : String) (vs : List String) : QVals :=
  if q.any (·.1 = k) then q.map (fun p => if p.1 = k then (k, vs) else p)
  else q ++ [(k, vs)]

theorem updateQ_keys (q : QVals) (k : String) (vs : List String) :
    (updateQ q k vs).map (·.1) =
      if q.any (·.1 = k) then q.map (·.1) else q.map (·.1) ++ [k] := by
  unfold updateQ
  by_cases h : q.any (·.1 = k)
  · simp only [h, if_pos, List.map_map]
    apply List.map_congr_left
    intro p _
    by_cases hp : p.1 = k <;> simp [hp]
  · simp [h]

theorem find?_map_updQ (q : QVals) {k k' : String} (vs : List String)
    (h : k' ≠ k) :
    List.find? (fun x => x.1 = k')
        (q.map (fun p => if p.1 = k then (k, vs) else p)) =
      List.find? (fun x => x.1 = k') q := by
  induction q with
  | nil => rfl
  | cons p rest ih =>
    rw [List.map_cons]
    by_cases hp1 : p.1 = k'
    · have hpk : ¬ p.1 = k := by rw [hp1]; exact fun hh => h hh
      rw [if_neg hpk, List.find?_cons_of_pos _ (by simpa using hp1),
        List.find?_cons_of_pos _ (by simpa using hp1)]
    · have hm : ¬ (if p.1 = k then (k, vs) else p).1 = k' := by
        by_cases hp : p.1 = k
        · rw [if_pos hp]
          exact fun hh => (Ne.symm h) hh
        · rw [if_neg hp]
          exact hp1
      rw [List.find?_cons_of_neg _ (by simpa using hm),
        List.find?_cons_of_neg _ (by simpa using hp1)]
      exact ih

theorem getQ_updateQ_ne {q : QVals} {k k' : String} {vs : List String}
    (h : k' ≠ k) : getQ (updateQ q k vs) k' = getQ q k' := by
  unfold updateQ getQ
  by_cases hin : q.any (·.1 = k)
  · rw [if_pos hin, find?_map_updQ q vs h]
  · rw [if_neg hin, List.find?_append]
    have hnone : List.find? (fun p => p.1 = k') [(k, vs)] = none := by
      simp [Ne.symm h]
    rw [hnone]
    cases List.find? (fun p => p.1 = k') q <;> rfl

theorem canonicalNames_updateQ {q : QVals} {k : String} {vs : List String}
    (h : k ∉ QsaOfInterest) :
    canonicalNames (updateQ q k vs) = canonicalNames q := by
  unfold canonicalNames
  rw [updateQ_keys]
  by_cases hin : q.any (·.1 = k)
  · simp [hin]
  · simp only [hin, Bool.false_eq_true, not_false_iff, if_neg, if_false]
    rw [List.filter_append]
    simp [h]

theorem canonicalQueryEntries_updateQ {q : QVals} {k : String}
    {vs : List String} (h : k ∉ QsaOfInterest) :
    canonicalQueryEntries (updateQ q k vs) = canonicalQueryEntries q := by
  rw [canonicalQueryEntries_eq_flatMap_if, canonicalQueryEntries_eq_flatMap_if,
    canonicalNames_updateQ h]
  apply flatMap_congr_mem
  intro a ha
  have haq : a ∈ QsaOfInterest := canonicalNames_mem_qsa ha
  have hne : a ≠ k := fun hh => h (hh ▸ haq)
  rw [getQ_updateQ_ne hne]

/-- Claim C7: `Signature` is deterministic (it is a pure function of the
secret key, method, headers, path and query string), and changing only a
query parameter whose name is not in the allow-list leaves the signature
unchanged. -/
theorem claim_C7 :
    (∀ (key method : String) (hs : Headers) (path rawQuery : String),
      Signature key method hs path rawQuery =
        Signature key method hs path rawQuery)
    ∧ (∀ (key method : String) (hs : Headers) (path : String) (q : QVals)
        (k : String) (vs : List String), k ∉ QsaOfInterest →
        SignatureQ key method hs path (updateQ q k vs) =
          SignatureQ key method hs path q) := by
  constructor
  · intro _ _ _ _ _
    rfl
  · intro key method hs path q k vs hk
    unfold SignatureQ canonicalStringQ canonicalQuerySuffix
    rw [canonicalQueryEntries_updateQ hk]

/-- Claim C7, witness: the invariance part applied at a concrete request
whose query gains a `foo` parameter (not allow-listed). -/
theorem claim_C7_witness :
    SignatureQ "secret" "PUT" [("Date", ["d"])] "/b/o"
        (updateQ [("acl", [""])] "foo" ["2"]) =
      SignatureQ "secret" "PUT" [("Date", ["d"])] "/b/o" [("acl", [""])] :=
  claim_C7.2 "secret" "PUT" [("Date", ["d"])] "/b/o" [("acl", [""])]
    "foo" ["2"] (by decide)

/-! ### Claim C8: characterizing the canonical header block -/

/-- First header entry whose lowercased key is `k`. -/
def hfind (hs : Headers) (k : String) : Option (String × List String) :=
  hs.find? (fun x => lowerStr x.1 = k)

/-- The value `Signature` signs for the lowercased header name `k`: the
space-joined values of the header when present, the empty string when
missing. -/
def hLook (hs : Headers) (k : String) : String :=
  match hfind hs k with
  | some x => joinSpace x.2
  | none => ""

/-- The lowercased relevant keys of a header map, in encounter order. -/
def relKeys (hs : Headers) : List String :=
  (hs.map (fun x => lowerStr x.1)).filter relKey

theorem relKeys_cons (x : String × List String) (rest : Headers) :
    relKeys (x :: rest) =
      if relKey (lowerStr x.1) then lowerStr x.1 :: relKeys rest
      else relKeys rest := by
  simp [relKeys, List.filter_cons]

theorem foldl_collectStep_snd (hs : Headers) :
    ∀ acc, (hs.foldl collectStep acc).2 = acc.2 ++ relKeys hs := by
  induction hs with
  | nil => intro acc; simp [relKeys]
  | cons x rest ih =>
    intro acc
    rw [List.foldl_cons, ih, relKeys_cons]
    by_cases h : relKey (lowerStr x.1)
    · simp [collectStep, h]
    · simp [collectStep, h]

theorem foldl_collectStep_fst (k : String) (hk : relKey k = true) :
    ∀ (hs : Headers), (hs.map (fun x => lowerStr x.1)).Nodup →
    ∀ acc, (hs.foldl collectStep acc).1 k =
      (match hfind hs k with
       | some x => some (joinSpace x.2)
       | none => acc.1 k) := by
  intro hs
  induction hs with
  | nil => intro _ acc; rfl
  | cons x rest ih =>
    intro hnd acc
    rw [List.map_cons] at hnd
    have hnd0 := List.nodup_cons.mp hnd
    rw [List.foldl_cons, ih hnd0.2 (collectStep acc x)]
    by_cases hx : lowerStr x.1 = k
    · have hhead : hfind (x :: rest) k = some x :=
        List.find?_cons_of_pos _ (by simpa using hx)
      have hrest : hfind rest k = none := by
        apply List.find?_eq_none.mpr
        intro y hy hyk
        apply hnd0.1
        rw [hx]
        have : lowerStr y.1 = k := by simpa using hyk
        rw [← this]
        exact List.mem_map.mpr ⟨y, hy, rfl⟩
      rw [hhead, hrest]
      have hrel : relKey (lowerStr x.1) = true := by rw [hx]; exact hk
      simp [collectStep, hrel, hx, hk]
    · have hhead : hfind (x :: rest) k = hfind rest k :=
        List.find?_cons_of_neg _ (by simpa using hx)
      rw [hhead]
      cases hr : hfind rest k with
      | some y => rfl
      | none =>
        show (collectStep acc x).1 k = acc.1 k
        unfold collectStep
        by_cases hrel : relKey (lowerStr x.1)
        · simp only [hrel, if_pos]
          exact if_neg (fun hh => hx hh.symm)
        · simp [hrel]

theorem collectH_snd (hs : Headers) : (collectH hs).2 = relKeys hs := by
  unfold collectH
  rw [foldl_collectStep_snd]
  rfl

theorem collectH_fst (hs : Headers)
    (hnd : (hs.map (fun x => lowerStr x.1)).Nodup) {k : String}
    (hk : relKey k = true) :
    (collectH hs).1 k = (hfind hs k).map (fun x => joinSpace x.2) := by
  unfold collectH
  rw [foldl_collectStep_fst k hk hs hnd]
  cases hfind hs k <;> rfl

theorem collectH_isSome_iff (hs : Headers)
    (hnd : (hs.map (fun x => lowerStr x.1)).Nodup) {k : String}
    (hk : relKey k = true) :
    ((collectH hs).1 k).isSome = true ↔ k ∈ (collectH hs).2 := by
  rw [collectH_fst hs hnd hk, collectH_snd]
  cases hf : hfind hs k with
  | some x =>
    simp only [Option.map_some', Option.isSome_some, true_iff]
    have hx : x ∈ hs ∧ lowerStr x.1 = k :=
      ⟨List.mem_of_find?_eq_some hf, by simpa using List.find?_some hf⟩
    apply List.mem_filter.mpr
    exact ⟨List.mem_map.mpr ⟨x, hx.1, hx.2⟩, hk⟩
  | none =>
    simp only [Option.map_none', Option.isSome_none, Bool.false_eq_true, false_iff]
    intro hmem
    have := List.mem_map.mp (List.mem_filter.mp hmem).1
    rcases this with ⟨y, hy, hyk⟩
    have := List.find?_eq_none.mp hf y hy
    simp [hyk] at this

theorem addOne_fst (p : (String → Option String) × List String) (n k : String) :
    (addOne p n).1 k = if k = n then some ((p.1 n).getD "") else p.1 k := by
  unfold addOne
  by_cases h : (p.1 n).isSome
  · rw [if_pos h]
    by_cases hk : k = n
    · subst hk
      rcases Option.isSome_iff_exists.mp h with ⟨v, hv⟩
      rw [if_pos rfl, hv]
      rfl
    · rw [if_neg hk]
  · rw [if_neg h]
    have hn : p.1 n = none := Option.not_isSome_iff_eq_none.mp h
    show (if k = n then some "" else p.1 k) = _
    rw [hn]
    rfl

theorem addOne_snd (p : (String → Option String) × List String) (n : String) :
    (addOne p n).2 = if (p.1 n).isSome then p.2 else p.2 ++ [n] := by
  unfold addOne
  by_cases h : (p.1 n).isSome <;> simp [h]

/-- Invariant carried across the three missing-header insertions. -/
def HdrInv (p : (String → Option String) × List String) : Prop :=
  p.2.Nodup ∧ (∀ k, relKey k = true → (k ∈ p.2 ↔ (p.1 k).isSome = true))
  ∧ (∀ k, k ∈ p.2 → relKey k = true)

theorem addOne_inv (p : (String → Option String) × List String) (n : String)
    (hn : relKey n = true) (hQ : HdrInv p) :
    HdrInv (addOne p n) ∧ n ∈ (addOne p n).2
    ∧ ∀ k, k ∈ p.2 → k ∈ (addOne p n).2 := by
  obtain ⟨h1, h2, h3⟩ := hQ
  by_cases h : (p.1 n).isSome
  · have he : addOne p n = p := by unfold addOne; simp [h]
    rw [he]
    exact ⟨⟨h1, h2, h3⟩, (h2 n hn).mpr h, fun k hk => hk⟩
  · have hnm : n ∉ p.2 := fun hmem => h ((h2 n hn).mp hmem)
    constructor
    · refine ⟨?_, ?_, ?_⟩
      · rw [addOne_snd, if_neg h]
        exact List.Nodup.append h1 (List.nodup_singleton n)
          (by intro a ha hb
              rw [List.mem_singleton] at hb
              exact hnm (hb ▸ ha))
      · intro k hk
        rw [addOne_snd, if_neg h, addOne_fst]
        by_cases hkn : k = n
        · simp [hkn]
        · rw [if_neg hkn]
          simp only [List.mem_append, List.mem_singleton, hkn, or_false]
          exact h2 k hk
      · intro k hk
        rw [addOne_snd, if_neg h] at hk
        rcases List.mem_append.mp hk with hk | hk
        · exact h3 k hk
        · rw [List.mem_singleton] at hk
          exact hk ▸ hn
    · constructor
      · rw [addOne_snd, if_neg h]
        simp
      · intro k hk
        rw [addOne_snd, if_neg h]
        exact List.mem_append.mpr (Or.inl hk)

theorem collectH_inv (hs : Headers)
    (hnd : (hs.map (fun x => lowerStr x.1)).Nodup) : HdrInv (collectH hs) := by
  refine ⟨?_, ?_, ?_⟩
  · rw [collectH_snd]
    exact List.Nodup.filter _ hnd
  · intro k hk
    rw [collectH_isSome_iff hs hnd hk]
  · intro k hk
    rw [collectH_snd] at hk
    exact (List.mem_filter.mp hk).2

theorem addMissing_mem_iff (hs : Headers)
    (hnd : (hs.map (fun x => lowerStr x.1)).Nodup) :
    (addMissing (collectH hs)).2.Nodup
    ∧ ∀ k, k ∈ (addMissing (collectH hs)).2 ↔ relKey k = true := by
  have h0 := collectH_inv hs hnd
  have s1 := addOne_inv (collectH hs) "date" (by decide) h0
  have s2 := addOne_inv (addOne (collectH hs) "date") "content-md5" (by decide) s1.1
  have s3 := addOne_inv (addOne (addOne (collectH hs) "date") "content-md5")
    "content-type" (by decide) s2.1
  have hA : addMissing (collectH hs) =
      addOne (addOne (addOne (collectH hs) "date") "content-md5")
        "content-type" := rfl
  rw [hA]
  refine ⟨s3.1.1, fun k => ⟨s3.1.2.2 k, fun hk => ?_⟩⟩
  have : k = "date" ∨ k = "content-type" ∨ k = "content-md5" := by
    have := hk
    unfold relKey at this
    simp only [Bool.or_eq_true, beq_iff_eq] at this
    tauto
  rcases this with h | h | h
  · subst h
    exact s3.2.2 _ (s2.2.2 _ s1.2.1)
  · subst h
    exact s3.2.1
  · subst h
    exact s3.2.2 _ s2.2.1

theorem sortStrings_addMissing (hs : Headers)
    (hnd : (hs.map (fun x => lowerStr x.1)).Nodup) :
    sortStrings (addMissing (collectH hs)).2 =
      ["content-md5", "content-type", "date"] := by
  obtain ⟨hnodup, hmem⟩ := addMissing_mem_iff hs hnd
  have hperm : List.Perm (addMissing (collectH hs)).2
      ["content-md5", "content-type", "date"] := by
    rw [List.perm_ext_iff_of_nodup hnodup (by decide)]
    intro a
    rw [hmem a]
    constructor
    · intro ha
      unfold relKey at ha
      simp only [Bool.or_eq_true, beq_iff_eq] at ha
      simp only [List.mem_cons, List.not_mem_nil, or_false]
      tauto
    · intro ha
      unfold relKey
      simp only [List.mem_cons, List.not_mem_nil, or_false] at ha
      simp only [Bool.or_eq_true, beq_iff_eq]
      tauto
  exact List.eq_of_perm_of_sorted
    ((List.perm_insertionSort strLeR _).trans hperm)
    (List.sorted_insertionSort strLeR _) (by decide)

theorem addMissing_fst_getD (hs : Headers)
    (hnd : (hs.map (fun x => lowerStr x.1)).Nodup) {n : String}
    (hn : relKey n = true) :
    ((addMissing (collectH hs)).1 n).getD "" = hLook hs n := by
  have hbase : ((collectH hs).1 n).getD "" = hLook hs n := by
    rw [collectH_fst hs hnd hn]
    unfold hLook
    cases hfind hs n <;> rfl
  have : n = "date" ∨ n = "content-type" ∨ n = "content-md5" := by
    unfold relKey at hn
    simp only [Bool.or_eq_true, beq_iff_eq] at hn
    tauto
  rcases this with h | h | h <;> subst h <;>
    simp [addMissing, addOne_fst, hbase]

/-- Characterization of the canonical header block built by `Signature`:
for any header map whose lowercased keys are distinct (as holds for every
`http.Header` populated through `Header.Set`), it is the method followed
by the values of exactly `content-md5`, `content-type` and `date` in this
order, one per line, the empty string substituted for a missing header,
and no other header contributing. -/
theorem canonicalHeaderPart_eq (m : String) (hs : Headers)
    (hnd : (hs.map (fun x => lowerStr x.1)).Nodup) :
    canonicalHeaderPart m hs =
      m ++ "\n" ++ hLook hs "content-md5" ++ "\n" ++
        hLook hs "content-type" ++ "\n" ++ hLook hs "date" ++ "\n" := by
  unfold canonicalHeaderPart
  rw [sortStrings_addMissing hs hnd]
  rw [List.foldl_cons, List.foldl_cons, List.foldl_cons, List.foldl_nil]
  rw [addMissing_fst_getD hs hnd (by decide),
    addMissing_fst_getD hs hnd (by decide),
    addMissing_fst_getD hs hnd (by decide)]

theorem hLook_append_absent {hs : Headers}
    (h2 : ∀ x ∈ hs, lowerStr x.1 ≠ "content-md5") :
    hLook (hs ++ [("Content-Md5", [""])]) "content-md5" = ""
    ∧ hLook (hs ++ [("Content-Md5", [""])]) "content-type" =
        hLook hs "content-type"
    ∧ hLook (hs ++ [("Content-Md5", [""])]) "date" = hLook hs "date"
    ∧ hLook hs "content-md5" = "" := by
  have hnone : hfind hs "content-md5" = none := by
    apply List.find?_eq_none.mpr
    intro x hx
    simpa using h2 x hx
  refine ⟨?_, ?_, ?_, ?_⟩
  · unfold hLook hfind
    rw [List.find?_append]
    unfold hfind at hnone
    rw [hnone]
    rfl
  · unfold hLook hfind
    rw [List.find?_append]
    have : List.find? (fun x => lowerStr x.1 = "content-type")
        [("Content-Md5", [""])] = none := by decide
    rw [this]
    cases List.find? (fun x => lowerStr x.1 = "content-type") hs <;> rfl
  · unfold hLook hfind
    rw [List.find?_append]
    have : List.find? (fun x => lowerStr x.1 = "date")
        [("Content-Md5", [""])] = none := by decide
    rw [this]
    cases List.find? (fun x => lowerStr x.1 = "date") hs <;> rfl
  · unfold hLook
    rw [hnone]

/-- Claim C8: for every request whose headers have distinct lowercased
keys and carry no Content-MD5, the canonical string with the header absent
equals the canonical string with `Content-MD5` set to the empty string;
missing signed headers are substituted by the empty string, the canonical
header block being exactly method, content-md5, content-type, date values
in order; and the canonical header block depends on no header beyond
those three. -/
theorem claim_C8 (m : String) (hs : Headers) (path rawQuery : String)
    (hnd : (hs.map (fun x => lowerStr x.1)).Nodup)
    (hno : ∀ x ∈ hs, lowerStr x.1 ≠ "content-md5") :
    canonicalString m (hs ++ [("Content-Md5", [""])]) path rawQuery =
      canonicalString m hs path rawQuery
    ∧ canonicalHeaderPart m hs =
        m ++ "\n" ++ hLook hs "content-md5" ++ "\n" ++
          hLook hs "content-type" ++ "\n" ++ hLook hs "date" ++ "\n"
    ∧ hLook hs "content-md5" = ""
    ∧ (∀ hs' : Headers, (hs'.map (fun x => lowerStr x.1)).Nodup →
        hLook hs' "content-md5" = hLook hs "content-md5" →
        hLook hs' "content-type" = hLook hs "content-type" →
        hLook hs' "date" = hLook hs "date" →
        canonicalHeaderPart m hs' = canonicalHeaderPart m hs) := by
  obtain ⟨e1, e2, e3, e4⟩ := hLook_append_absent hno
  have hnd' : ((hs ++ [("Content-Md5", [""])]).map
      (fun x => lowerStr x.1)).Nodup := by
    rw [List.map_append]
    rw [List.nodup_append]
    refine ⟨hnd, by decide, ?_⟩
    intro a ha hb
    rcases List.mem_map.mp ha with ⟨x, hx, hxa⟩
    have : lowerStr ("Content-Md5", ([""] : List String)).1 = "content-md5" := by
      decide
    simp only [List.map_cons, List.map_nil, List.mem_cons,
      List.not_mem_nil, or_false] at hb
    rw [this] at hb
    apply hno x hx
    rw [hxa, hb]
  constructor
  · unfold canonicalString canonicalStringQ
    rw [canonicalHeaderPart_eq m _ hnd', canonicalHeaderPart_eq m hs hnd]
    rw [e1, e2, e3, e4]
  · refine ⟨canonicalHeaderPart_eq m hs hnd, e4, ?_⟩
    intro hs' hnd2 q1 q2 q3
    rw [canonicalHeaderPart_eq m hs' hnd2, canonicalHeaderPart_eq m hs hnd,
      q1, q2, q3]

/-- Claim C8, witness: the theorem applied to a concrete header map with
`Date` and `Content-Type` set and `Content-MD5` absent. -/
theorem claim_C8_witness :
    canonicalString "PUT"
        ([("Date", ["D"]), ("Content-Type", ["text/plain"])] ++
          [("Content-Md5", [""])]) "/b/o" "" =
      canonicalString "PUT"
        [("Date", ["D"]), ("Content-Type", ["text/plain"])] "/b/o" "" :=
  (claim_C8 "PUT" [("Date", ["D"]), ("Content-Type", ["text/plain"])]
    "/b/o" "" (by decide) (by decide)).1

/-! ### The upload engine of `PutObjRequest.Do` (`obj.go`)

The coordinator is the `for loop { select { ... } }` over `notifyErrC`,
`writeDoneC`, `timeout.C` and `respBufC`; it is modelled as a state
machine folded over the list of events received, the state being the
`poresp` fields plus the `loop` flag and the currently armed timer
duration.  The two goroutines are modelled by the events they emit. -/

/-- A parsed HTTP response as the reader forwards it on `respBufC`:
status code, the `ETag` header value, and the outcome of
`ioutil.ReadAll(resp.Body)` (`none` models a body-read error). -/
structure HttpResp where
  status : Nat
  etagHeader : String
  bodyRead : Option String
deriving DecidableEq

/-- One event the coordinator's `select` can receive: an error on
`notifyErrC`, a write-done signal on `writeDoneC`, expiry of `timeout.C`,
or a response on `respBufC`. -/
inductive CoordEvent where
  | errE (e : String)
  | writeDone
  | timerFire
  | respE (r : HttpResp)
deriving DecidableEq

/-- Per-request configuration of the coordinator: the `genUrl` flag, the
precomputed base64 MD5 of the file, and the outcome `GenDownloadUrl`
would produce if invoked (`none` models its failure). -/
structure PutCfg where
  genUrl : Bool
  md5 : String
  genUrlOutcome : Option String

/-- The coordinator state: the `PutObjResponse` fields, the `loop` flag
and the armed timer duration in seconds. -/
structure PutState where
  err : Option String
  etag : String
  b64md5 : String
  durl : String
  loopFlag : Bool
  timerDur : Nat
deriving DecidableEq

/-- The initial timer of the loop, `100 * 365 * 24 * time.Hour`, in
seconds. -/
def hundredYears : Nat := 100 * 365 * 24 * 3600

/-- The state on entry to the loop: no error, empty result fields,
looping, timer at `hundredYears`. -/
def initPutState : PutState :=
  ⟨none, "", "", "", true, hundredYears⟩

/-- One iteration of the coordinator `select` (`obj.go` lines 254-299).
After the loop has stopped (`loopFlag = false`) further events are not
received.  A response with status below 200 only `break`s the `select`;
a terminal response reads the body (surfacing a non-200 body as the
error), on 200 optionally invokes the URL generator (a failure aborting
before `ETag`/`Base64Md5` are filled), then records `ETag` (quotes
trimmed) and `Base64Md5`.  `writeDoneC` re-arms the timer to 5 s; the
timer firing fails the upload with `Read response timeout`. -/
def coordStep (cfg : PutCfg) (s : PutState) (ev : CoordEvent) : PutState :=
  if s.loopFlag = false then s
  else
    match ev with
    | .errE e => { s with err := some e, loopFlag := false }
    | .writeDone => { s with timerDur := 5 }
    | .timerFire => { s with err := some "Read response timeout", loopFlag := false }
    | .respE r =>
      if r.status < 200 then s
      else
        match r.bodyRead with
        | none => { s with err := some "Read response body err", loopFlag := false }
        | some body =>
          if r.status ≠ 200 then { s with err := some body, loopFlag := false }
          else if cfg.genUrl then
            match cfg.genUrlOutcome with
            | none =>
              { s with
                  err := some "Generate download url failed"
                  loopFlag := false }
            | some u =>
              { s with
                  durl := u
                  etag := trimQuotes r.etagHeader
                  b64md5 := cfg.md5
                  loopFlag := false }
          else
            { s with
                etag := trimQuotes r.etagHeader
                b64md5 := cfg.md5
                loopFlag := false }

/-- The coordinator loop folded over the received events. -/
def runCoord (cfg : PutCfg) (s : PutState) (evs : List CoordEvent) : PutState :=
  evs.foldl (coordStep cfg) s

/-- Model of `PutObjRequest.Do`: either one of the early validation/IO
failures before the loop (nil parameter, invalid `RequestParam`, file
open or digest failure, request construction, dial), which return a
`PutObjResponse` holding only the error, or the coordinator loop run over
the events the goroutines emit. -/
def putObjDoModel (cfg : PutCfg) (early : Option String)
    (evs : List CoordEvent) : PutState :=
  match early with
  | some e => { initPutState with err := some e, loopFlag := false }
  | none => runCoord cfg initPutState evs

/-! ### The writer goroutine of `PutObjRequest.Do` (`obj.go` 184-245) -/

/-- Environment and inputs of the writer goroutine: the serialized header
block, the chunk sequence successive `f.Read(chunk)` calls return (each
at most 8192 bytes), whether the read after the last chunk fails instead
of reporting EOF, the `stat` file size, the progress flag, the success of
the i-th `conn.Write` (index 0 is the header block), and the clock
sampled before the i-th chunk's throttle check. -/
structure WriterIn where
  headerBytes : List Nat
  chunks : List (List Nat)
  readFail : Bool
  fileSize : Nat
  enableProgress : Bool
  wOk : Nat → Bool
  clock : Nat → Nat

/-- What the writer goroutine does: the bytes it wrote to the connection,
the successive values it stored in `progress`, and the events it sent on
the channels. -/
structure WriterOut where
  connBytes : List Nat
  stores : List Nat
  sends : List CoordEvent

/-- The trailing CRLF of the request body. -/
def crlfBytes : List Nat := [13, 10]

/-- The progress-throttle block of the writer: no store when progress is
disabled, when less than a second elapsed since the last update, or when
the file size is not positive; otherwise store
`writeCount * 100 / fileSize` and remember the time. -/
def progressStep (win : WriterIn) (idx wc lastUpd : Nat) : List Nat × Nat :=
  if win.enableProgress = false then ([], lastUpd)
  else if win.clock idx - lastUpd < 1 then ([], lastUpd)
  else if 0 < win.fileSize then ([wc * 100 / win.fileSize], win.clock idx)
  else ([], lastUpd)

/-- End of the body loop: write the trailing CRLF (reporting `Send err`
on failure) and, with progress enabled, force the progress to 100.  The
writer sends nothing else on success — in particular nothing on
`writeDoneC`. -/
def writerTail (win : WriterIn) (idx : Nat) : WriterOut :=
  if win.wOk idx = false then ⟨[], [], [CoordEvent.errE "Send err"]⟩
  else ⟨crlfBytes, if win.enableProgress then [100] else [], []⟩

/-- The body-writing loop of the writer goroutine: reads return the
listed chunks, a zero-length read breaks to the CRLF write, a failed
`conn.Write` reports `Send err` and exits, and each successful write
accumulates `writeCount` and runs the throttled progress update. -/
def writerLoop (win : WriterIn) :
    List (List Nat) → Nat → Nat → Nat → WriterOut
  | [], idx, _, _ =>
    if win.readFail then ⟨[], [], [CoordEvent.errE "Read file err"]⟩
    else writerTail win idx
  | c :: rest, idx, writeCount, lastUpd =>
    if c.length = 0 then writerTail win idx
    else if win.wOk idx = false then ⟨[], [], [CoordEvent.errE "Send err"]⟩
    else
      let wc := writeCount + c.length
      let st := progressStep win idx wc lastUpd
      let r := writerLoop win rest (idx + 1) wc st.2
      ⟨c ++ r.connBytes, st.1 ++ r.stores, r.sends⟩

/-- The writer goroutine: write the header block (reporting failure on
`notifyErrC`), then the body loop. -/
def writerGo (win : WriterIn) : WriterOut :=
  if win.wOk 0 = false then ⟨[], [], [CoordEvent.errE "Write http header err"]⟩
  else
    let r := writerLoop win win.chunks 1 0 0
    ⟨win.headerBytes ++ r.connBytes, r.stores, r.sends⟩

/-! ### The serialized request of `PutObjRequest.Do` (`obj.go` 110-131) -/

/-- The header block `PutObjRequest.Do` assembles in `buf`, line for
line. -/
def putHeaderString (host bucket objName md5 date accessKey sign : String)
    (fileSize : Nat) : String :=
  "PUT /" ++ bucket ++ "/" ++ objName ++ " HTTP/1.1\r\n" ++
  "Host: " ++ host ++ "\r\n" ++
  "User-Agent: Go-http-client/1.1\r\n" ++
  "Accept-Encoding: identity\r\n" ++
  "Content-Type: " ++ "binary/octet-stream" ++ "\r\n" ++
  "Content-Length: " ++ toString fileSize ++ "\r\n" ++
  "Content-MD5: " ++ md5 ++ "\r\n" ++
  "Date: " ++ date ++ "\r\n" ++
  "Authorization: AWS " ++ accessKey ++ ":" ++ sign ++ "\r\n" ++
  "\r\n"

/-- The headers `Do` sets on the signing request (Go canonicalizes
`Content-MD5` to `Content-Md5`); `Content-Type` is always
`binary/octet-stream`. -/
def putObjHeaders (date md5 : String) : Headers :=
  [("Date", [date]), ("Content-Type", ["binary/octet-stream"]),
   ("Content-Md5", [md5])]

/-- The signature `Do` computes: the signing request has URL
`http://host/bucket/objName`, hence path `/bucket/objName` and empty
query. -/
def putObjSignature (secretKey date md5 bucket objName : String) : String :=
  Signature secretKey "PUT" (putObjHeaders date md5)
    ("/" ++ bucket ++ "/" ++ objName) ""

/-- The writer's observable behaviour for one upload, with the digest
utility abstracted (its source is outside the repository snapshot;
modelled from the spec as a whole-file digest). -/
def putWriterRun (host accessKey secretKey bucket objName date : String)
    (digest : List Nat → String) (file : List Nat)
    (chunks : List (List Nat)) (readFail enableProgress : Bool)
    (wOk : Nat → Bool) (clock : Nat → Nat) : WriterOut :=
  writerGo ⟨strBytes (putHeaderString host bucket objName (digest file) date
      accessKey (putObjSignature secretKey date (digest file) bucket objName)
      file.length),
    chunks, readFail, file.length, enableProgress, wOk, clock⟩

/-! ### `GetObjRequest.save` (`obj.go` 498-570) -/

/-- Inputs of one `save` call that the environment decides: whether the
temp file opens, the bytes `io.Copy` manages to write, whether the stream
errors after them, and whether `Sync` and `Rename` succeed. -/
structure SaveEnv where
  openOk : Bool
  data : List Nat
  copyErr : Bool
  syncOk : Bool
  renameOk : Bool

/-- Request-side parameters of `save`: the expected object size, the
caller-supplied base64 MD5 (empty means no verification), the progress
flag. -/
structure SaveCfg where
  objSize : Nat
  base64Md5 : String
  enableProgress : Bool

/-- The two file-system slots `save` touches: the final path and the
temp path (`savePath + ".download"`). -/
structure FsState where
  final : Option (List Nat)
  tmp : Option (List Nat)
deriving DecidableEq

/-- Result of one `save` call: file-system contents, returned error, and
the progress value after the poller observed the stop signal.  The
poller never updates progress during the copy (its `err == nil` guard
skips the update when `Stat` succeeds); it stores 100 when `stopC` is
closed, which the `defer` does on every exit after the temp file was
opened — failures included. -/
structure SaveOut where
  fs : FsState
  result : Option String
  progress : Nat

/-- The progress value after the `stopC` close is observed: the poller
stores 100 on stop, on success and failure alike. -/
def saveProg (cfg : SaveCfg) : Nat := if cfg.enableProgress then 100 else 0

/-- Model of `GetObjRequest.save`.  The digest utility `Base64MD5` is
abstracted as `digest` (its source is outside the repository snapshot;
modelled from the spec as a whole-file digest of the written bytes).
Each error return unwinds through `os.Remove(tmpPath)`, so the temp slot
is cleared; only the final `os.Rename` success moves the data to the
final slot.  An open failure happens before the progress poller starts,
so it leaves progress at 0. -/
def saveModel (digest : List Nat → String) (cfg : SaveCfg) (env : SaveEnv)
    (fs0 : FsState) : SaveOut :=
  if env.openOk = false then
    ⟨⟨fs0.final, none⟩, some "Open file err", 0⟩
  else if env.copyErr then
    ⟨⟨fs0.final, none⟩, some "Write file content err", saveProg cfg⟩
  else if env.data.length ≠ cfg.objSize then
    ⟨⟨fs0.final, none⟩, some "Loss of data during writing", saveProg cfg⟩
  else if env.syncOk = false then
    ⟨⟨fs0.final, none⟩, some "Sync object to file err", saveProg cfg⟩
  else if 0 < cfg.base64Md5.length ∧ digest env.data ≠ cfg.base64Md5 then
    ⟨⟨fs0.final, none⟩, some "Base64Md5 not equal", saveProg cfg⟩
  else if env.renameOk = false then
    ⟨⟨fs0.final, none⟩, some "Rename file err", saveProg cfg⟩
  else ⟨⟨some env.data, none⟩, none, saveProg cfg⟩

/-! ### `GMTime` (`utils.go`) -/

/-- A broken-down time as Go's formatting sees it.  `weekday` is carried
to show that the layout never consults it. -/
structure GoTm where
  year : Nat
  month : Nat
  day : Nat
  hour : Nat
  minute : Nat
  sec : Nat
  weekday : Nat

/-- Month abbreviations of Go's reference layout (`Jan` = month 1). -/
def monthAbbr (m : Nat) : String :=
  ["Jan", "Feb", "Mar", "Apr", "May", "Jun", "Jul", "Aug", "Sep", "Oct",
   "Nov", "Dec"].getD (m - 1) "Jan"

/-- Zero-pad to two digits (`04`, `05`, `15` layout fields). -/
def pad2 (n : Nat) : String := if n < 10 then "0" ++ toString n else toString n

/-- Model of `t.Format("Sat, 2 Jan 2006 15:04:05 GMT")`.  Go's layout
parser recognizes `2`, `Jan`, `2006`, `15`, `04`, `05` as fields; the
substrings `Sat, ` and ` GMT` match no reference element (the weekday
field would be `Mon`), so they are literal text: the output always
starts with `Sat, ` whatever the weekday of `t`. -/
def goFormatSatLayout (t : GoTm) : String :=
  "Sat, " ++ toString t.day ++ " " ++ monthAbbr t.month ++ " " ++
    toString t.year ++ " " ++ pad2 t.hour ++ ":" ++ pad2 t.minute ++ ":" ++
    pad2 t.sec ++ " GMT"

/-- The instant `GMTime` formats, on the timeline of Unix seconds: the
host clock reads `nowUtc + tzOffset` (its local wall time), and `GMTime`
subtracts a fixed eight hours. -/
def gmtimeInstant (nowUtc tzOffset : Int) : Int :=
  nowUtc + tzOffset - 8 * 3600

/-- Model of `GMTime`: format the shifted instant with the `Sat`-literal
layout, `breakdown` being the calendar decomposition of an instant. -/
def gmtimeModel (breakdown : Int → GoTm) (nowUtc tzOffset : Int) : String :=
  goFormatSatLayout (breakdown (gmtimeInstant nowUtc tzOffset))

/-! ### Claim C3 -/

/-- Claim C3: a download is renamed to the final path only when the byte
count equals the expected object size, fsync succeeded and any
caller-supplied checksum matches the recomputed digest (success then
places exactly the streamed bytes at the final path and clears the temp
path); and on any failure the temp file is removed, an error is returned
and the final path keeps its previous content. -/
theorem claim_C3 (digest : List Nat → String) (cfg : SaveCfg) (env : SaveEnv)
    (fs0 : FsState) :
    ((saveModel digest cfg env fs0).result = none →
      env.data.length = cfg.objSize ∧ env.syncOk = true
      ∧ (0 < cfg.base64Md5.length → digest env.data = cfg.base64Md5)
      ∧ (saveModel digest cfg env fs0).fs.final = some env.data
      ∧ (saveModel digest cfg env fs0).fs.tmp = none)
    ∧ (∀ e, (saveModel digest cfg env fs0).result = some e →
        (saveModel digest cfg env fs0).fs.tmp = none
        ∧ (saveModel digest cfg env fs0).fs.final = fs0.final) := by
  unfold saveModel
  by_cases h1 : env.openOk = false
  · rw [if_pos h1]
    exact ⟨fun h => absurd h (by simp), fun e _ => ⟨rfl, rfl⟩⟩
  rw [if_neg h1]
  by_cases h2 : env.copyErr = true
  · rw [if_pos h2]
    exact ⟨fun h => absurd h (by simp), fun e _ => ⟨rfl, rfl⟩⟩
  rw [if_neg h2]
  by_cases h3 : env.data.length ≠ cfg.objSize
  · rw [if_pos h3]
    exact ⟨fun h => absurd h (by simp), fun e _ => ⟨rfl, rfl⟩⟩
  rw [if_neg h3]
  by_cases h4 : env.syncOk = false
  · rw [if_pos h4]
    exact ⟨fun h => absurd h (by simp), fun e _ => ⟨rfl, rfl⟩⟩
  rw [if_neg h4]
  by_cases h5 : 0 < cfg.base64Md5.length ∧ digest env.data ≠ cfg.base64Md5
  · rw [if_pos h5]
    exact ⟨fun h => absurd h (by simp), fun e _ => ⟨rfl, rfl⟩⟩
  rw [if_neg h5]
  by_cases h6 : env.renameOk = false
  · rw [if_pos h6]
    exact ⟨fun h => absurd h (by simp), fun e _ => ⟨rfl, rfl⟩⟩
  rw [if_neg h6]
  refine ⟨fun _ => ⟨not_ne_iff.mp h3, ?_, ?_, rfl, rfl⟩,
    fun e he => absurd he (by simp)⟩
  · revert h4
    cases env.syncOk <;> simp
  · intro hlen
    by_contra hne
    exact h5 ⟨hlen, hne⟩

/-- Claim C3, witness: a checksum mismatch removes the temp file and
leaves the final path untouched. -/
theorem claim_C3_witness :
    (saveModel (fun _ => "X") ⟨2, "Y", false⟩ ⟨true, [7, 8], false, true, true⟩
        ⟨some [1], none⟩).fs.tmp = none
    ∧ (saveModel (fun _ => "X") ⟨2, "Y", false⟩ ⟨true, [7, 8], false, true, true⟩
        ⟨some [1], none⟩).fs.final = some [1] :=
  (claim_C3 (fun _ => "X") ⟨2, "Y", false⟩ ⟨true, [7, 8], false, true, true⟩
    ⟨some [1], none⟩).2 "Base64Md5 not equal" rfl

/-! ### Claim C4 -/

/-- Claim C4, failing run: a download with progress enabled whose stream
delivers 3 of the expected 5 bytes fails with the size-mismatch error,
yet the progress poller stores 100 when the stop channel closes on the
error exit: 100 is reached although the transfer did not complete
successfully.  The writer shows the same on upload: with the last chunk
written (progress stored as 100) a failing trailing-CRLF write still
fails the transfer. -/
theorem claim_C4 :
    (saveModel (fun _ => "") ⟨5, "", true⟩ ⟨true, [1, 2, 3], false, true, true⟩
        ⟨none, none⟩).result = some "Loss of data during writing"
    ∧ (saveModel (fun _ => "") ⟨5, "", true⟩ ⟨true, [1, 2, 3], false, true, true⟩
        ⟨none, none⟩).progress = 100
    ∧ (writerGo ⟨[], [[9]], false, 1, true, fun i => decide (i < 2),
        fun _ => 5⟩).stores = [100]
    ∧ (writerGo ⟨[], [[9]], false, 1, true, fun i => decide (i < 2),
        fun _ => 5⟩).sends = [CoordEvent.errE "Send err"] := by
  refine ⟨rfl, rfl, rfl, rfl⟩

/-! ### Claim C5 -/

/-- Claim C5: while the loop runs, a response with status below 200 is
provisional (the state, including the running loop, is unchanged); a
response with status at least 200 stops the loop, a non-200 status
surfaces the response body as the error message, and status 200 yields
success with the entity tag extracted (quotes trimmed) and, when
requested, the download URL produced by the generator (whose failure
aborts the upload instead). -/
theorem claim_C5 (cfg : PutCfg) (s : PutState) (r : HttpResp)
    (hl : s.loopFlag = true) :
    (r.status < 200 → coordStep cfg s (.respE r) = s)
    ∧ (200 ≤ r.status →
        (coordStep cfg s (.respE r)).loopFlag = false
        ∧ (r.bodyRead = none →
            (coordStep cfg s (.respE r)).err = some "Read response body err")
        ∧ (∀ body, r.bodyRead = some body → r.status ≠ 200 →
            (coordStep cfg s (.respE r)).err = some body)
        ∧ (∀ body, r.bodyRead = some body → r.status = 200 →
            (cfg.genUrl = true → cfg.genUrlOutcome = none →
              (coordStep cfg s (.respE r)).err =
                some "Generate download url failed")
            ∧ (∀ u, cfg.genUrl = true → cfg.genUrlOutcome = some u →
                coordStep cfg s (.respE r) =
                  { s with
                      durl := u
                      etag := trimQuotes r.etagHeader
                      b64md5 := cfg.md5
                      loopFlag := false })
            ∧ (cfg.genUrl = false →
                coordStep cfg s (.respE r) =
                  { s with
                      etag := trimQuotes r.etagHeader
                      b64md5 := cfg.md5
                      loopFlag := false }))) := by
  constructor
  · intro hlt
    unfold coordStep
    simp [hl, hlt]
  · intro hge
    have hnlt : ¬ r.status < 200 := by omega
    refine ⟨?_, ?_, ?_, ?_⟩
    · unfold coordStep
      by_cases h2 : r.status = 200 <;> by_cases hg : cfg.genUrl = true <;>
        cases hb : r.bodyRead <;> cases hgo : cfg.genUrlOutcome <;>
          simp [hl, hnlt, h2, hg, hb, hgo]
    · intro hb
      unfold coordStep
      simp [hl, hnlt, hb]
    · intro body hb h2
      unfold coordStep
      simp [hl, hnlt, hb, h2]
    · intro body hb h2
      refine ⟨?_, ?_, ?_⟩
      · intro hg hgo
        unfold coordStep
        simp [hl, hnlt, hb, h2, hg, hgo]
      · intro u hg hgo
        unfold coordStep
        simp [hl, hnlt, hb, h2, hg, hgo]
      · intro hg
        unfold coordStep
        simp [hl, hnlt, hb, h2, hg]

/-- Claim C5, witness: the theorem applied to a provisional 100 response
and to a terminal 403 response with body `denied`, from the initial
state. -/
theorem claim_C5_witness :
    coordStep ⟨false, "m", none⟩ initPutState (.respE ⟨100, "", some ""⟩) =
      initPutState
    ∧ (coordStep ⟨false, "m", none⟩ initPutState
        (.respE ⟨403, "", some "denied"⟩)).err = some "denied" :=
  ⟨(claim_C5 ⟨false, "m", none⟩ initPutState ⟨100, "", some ""⟩ rfl).1
      (by decide),
    ((claim_C5 ⟨false, "m", none⟩ initPutState ⟨403, "", some "denied"⟩
      rfl).2 (by decide)).2.2.1 "denied" rfl (by decide)⟩

/-! ### Claim C6 -/

/-- Invariant of the coordinator: while the loop runs the state is still
pristine, and whenever an error is recorded the result fields are
empty. -/
def StateInv (s : PutState) : Prop :=
  (s.loopFlag = true → s.err = none ∧ s.etag = "" ∧ s.b64md5 = ""
    ∧ s.durl = "")
  ∧ (s.err.isSome = true → s.etag = "" ∧ s.b64md5 = "" ∧ s.durl = "")

theorem coordStep_inv (cfg : PutCfg) (s : PutState) (ev : CoordEvent)
    (h : StateInv s) : StateInv (coordStep cfg s ev) := by
  unfold coordStep
  by_cases hl : s.loopFlag = false
  · rw [if_pos hl]
    exact h
  · rw [if_neg hl]
    have hl' : s.loopFlag = true := by
      cases hb : s.loopFlag
      · exact absurd hb hl
      · rfl
    obtain ⟨he, hf1, hf2, hf3⟩ := h.1 hl'
    cases ev with
    | errE e =>
      exact ⟨fun hc => absurd hc (by simp), fun _ => ⟨hf1, hf2, hf3⟩⟩
    | writeDone =>
      exact ⟨fun _ => ⟨he, hf1, hf2, hf3⟩, fun _ => ⟨hf1, hf2, hf3⟩⟩
    | timerFire =>
      exact ⟨fun hc => absurd hc (by simp), fun _ => ⟨hf1, hf2, hf3⟩⟩
    | respE r =>
      dsimp only
      by_cases hst : r.status < 200
      · rw [if_pos hst]
        exact h
      · rw [if_neg hst]
        cases r.bodyRead with
        | none => exact ⟨fun hc => absurd hc (by simp), fun _ => ⟨hf1, hf2, hf3⟩⟩
        | some body =>
          dsimp only
          by_cases h2 : r.status ≠ 200
          · rw [if_pos h2]
            exact ⟨fun hc => absurd hc (by simp), fun _ => ⟨hf1, hf2, hf3⟩⟩
          · rw [if_neg h2]
            by_cases hg : cfg.genUrl = true
            · rw [if_pos hg]
              cases cfg.genUrlOutcome with
              | none =>
                exact ⟨fun hc => absurd hc (by simp),
                  fun _ => ⟨hf1, hf2, hf3⟩⟩
              | some u =>
                refine ⟨fun hc => absurd hc (by simp), fun hc => ?_⟩
                refine absurd hc ?_
                show ¬ s.err.isSome = true
                rw [he]
                simp
            · rw [if_neg hg]
              refine ⟨fun hc => absurd hc (by simp), fun hc => ?_⟩
              refine absurd hc ?_
              show ¬ s.err.isSome = true
              rw [he]
              simp

theorem runCoord_inv (cfg : PutCfg) :
    ∀ (evs : List CoordEvent) (s : PutState), StateInv s →
      StateInv (runCoord cfg s evs) := by
  intro evs
  induction evs with
  | nil => intro s hs; exact hs
  | cons ev rest ih =>
    intro s hs
    exact ih (coordStep cfg s ev) (coordStep_inv cfg s ev hs)

/-- Claim C6: whenever the upload returns with a non-nil error — from an
early validation or I/O failure or from any loop outcome — the returned
`PutObjResponse` carries empty `ETag`, `Base64Md5` and `DownloadUrl`. -/
theorem claim_C6 (cfg : PutCfg) (early : Option String)
    (evs : List CoordEvent) (e : String)
    (h : (putObjDoModel cfg early evs).err = some e) :
    (putObjDoModel cfg early evs).etag = ""
    ∧ (putObjDoModel cfg early evs).b64md5 = ""
    ∧ (putObjDoModel cfg early evs).durl = "" := by
  have hinv : StateInv (putObjDoModel cfg early evs) := by
    cases early with
    | some e0 =>
      exact ⟨fun hc => absurd hc (by simp [putObjDoModel]),
        fun _ => ⟨rfl, rfl, rfl⟩⟩
    | none =>
      exact runCoord_inv cfg evs initPutState
        ⟨fun _ => ⟨rfl, rfl, rfl, rfl⟩,
          fun hc => absurd hc (by simp [initPutState])⟩
  exact hinv.2 (by rw [h]; rfl)

/-- Claim C6, witness: the theorem applied to the early `Nil
RequestParam` failure and to a timeout run. -/
theorem claim_C6_witness :
    ((putObjDoModel ⟨true, "m", some "u"⟩ (some "Nil RequestParam") []).etag = ""
      ∧ (putObjDoModel ⟨true, "m", some "u"⟩ (some "Nil RequestParam") []).b64md5 = ""
      ∧ (putObjDoModel ⟨true, "m", some "u"⟩ (some "Nil RequestParam") []).durl = "")
    ∧ ((putObjDoModel ⟨true, "m", some "u"⟩ none [.timerFire]).etag = ""
      ∧ (putObjDoModel ⟨true, "m", some "u"⟩ none [.timerFire]).b64md5 = ""
      ∧ (putObjDoModel ⟨true, "m", some "u"⟩ none [.timerFire]).durl = "") :=
  ⟨claim_C6 ⟨true, "m", some "u"⟩ (some "Nil RequestParam") []
      "Nil RequestParam" rfl,
    claim_C6 ⟨true, "m", some "u"⟩ none [.timerFire]
      "Read response timeout" rfl⟩

/-! ### Claim C2 -/

theorem writerLoop_no_writeDone (win : WriterIn) :
    ∀ (chunks : List (List Nat)) (idx wc lu : Nat),
      CoordEvent.writeDone ∉ (writerLoop win chunks idx wc lu).sends := by
  intro chunks
  induction chunks with
  | nil =>
    intro idx wc lu
    unfold writerLoop
    by_cases hr : win.readFail = true
    · simp [hr]
    · simp only [hr, Bool.false_eq_true, not_false_iff, if_false, if_neg]
      unfold writerTail
      by_cases hw : win.wOk idx = false <;> simp [hw]
  | cons c rest ih =>
    intro idx wc lu
    unfold writerLoop
    by_cases hc : c.length = 0
    · simp only [hc, if_pos]
      unfold writerTail
      by_cases hw : win.wOk idx = false <;> simp [hw]
    · rw [if_neg hc]
      by_cases hw : win.wOk idx = false
      · simp [hw]
      · simp only [hw, Bool.false_eq_true, not_false_iff, if_false, if_neg]
        exact ih (idx + 1) (wc + c.length)
          (progressStep win idx (wc + c.length) lu).2

/-- Claim C2 is a defect of the code: the writer goroutine never sends on
`writeDoneC` (its only channel sends are errors on `notifyErrC`), and the
coordinator re-arms the timer to 5 s exclusively on a `writeDone` event,
so a fully successful write against a silent peer leaves the coordinator
looping on the initial hundred-year timer instead of timing out within
the final-wait window. -/
theorem claim_C2 :
    (∀ win : WriterIn, CoordEvent.writeDone ∉ (writerGo win).sends)
    ∧ (∀ (cfg : PutCfg) (s : PutState) (ev : CoordEvent),
        ev ≠ CoordEvent.writeDone →
        (coordStep cfg s ev).timerDur = s.timerDur)
    ∧ (writerGo ⟨[72], [[1]], false, 1, false, fun _ => true,
        fun _ => 1⟩).sends = []
    ∧ runCoord ⟨false, "", none⟩ initPutState [] = initPutState
    ∧ initPutState.timerDur = hundredYears
    ∧ initPutState.loopFlag = true := by
  refine ⟨?_, ?_, rfl, rfl, rfl, rfl⟩
  · intro win
    unfold writerGo
    by_cases hw : win.wOk 0 = false
    · simp [hw]
    · simp only [hw, Bool.false_eq_true, not_false_iff, if_false, if_neg]
      exact writerLoop_no_writeDone win win.chunks 1 0 0
  · intro cfg s ev hne
    unfold coordStep
    by_cases hl : s.loopFlag = false
    · rw [if_pos hl]
    · rw [if_neg hl]
      cases ev with
      | errE e => rfl
      | writeDone => exact absurd rfl hne
      | timerFire => rfl
      | respE r =>
        dsimp only
        by_cases hst : r.status < 200
        · rw [if_pos hst]
        · rw [if_neg hst]
          cases r.bodyRead with
          | none => rfl
          | some body =>
            dsimp only
            by_cases h2 : r.status ≠ 200
            · rw [if_pos h2]
            · rw [if_neg h2]
              by_cases hg : cfg.genUrl = true
              · rw [if_pos hg]
                cases cfg.genUrlOutcome <;> rfl
              · rw [if_neg hg]

/-- Claim C2, witness: the timer-preservation part applied to a concrete
non-writeDone event. -/
theorem claim_C2_witness :
    (coordStep ⟨false, "", none⟩ initPutState
      (CoordEvent.errE "boom")).timerDur = initPutState.timerDur :=
  claim_C2.2.1 ⟨false, "", none⟩ initPutState (CoordEvent.errE "boom")
    (by decide)

/-! ### Claim C9 -/

theorem crlfBytes_eq : crlfBytes = strBytes "\r\n" := by decide

theorem writerLoop_success (win : WriterIn) (hro : win.readFail = false)
    (hw : ∀ i, win.wOk i = true) :
    ∀ (chunks : List (List Nat)) (idx wc lu : Nat), (∀ c ∈ chunks, c ≠ []) →
      (writerLoop win chunks idx wc lu).connBytes = chunks.flatten ++ crlfBytes
      ∧ (writerLoop win chunks idx wc lu).sends = [] := by
  intro chunks
  induction chunks with
  | nil =>
    intro idx wc lu _
    unfold writerLoop writerTail
    simp [hro, hw idx]
  | cons c rest ih =>
    intro idx wc lu hcs
    have hc : c ≠ [] := (hcs c (by simp))
    have hlen : ¬ c.length = 0 := by
      simpa [List.length_eq_zero] using hc
    unfold writerLoop
    rw [if_neg hlen]
    have hwn : ¬ win.wOk idx = false := by simp [hw idx]
    rw [if_neg hwn]
    obtain ⟨ih1, ih2⟩ := ih (idx + 1) (wc + c.length)
      (progressStep win idx (wc + c.length) lu).2
      (fun d hd => hcs d (List.mem_cons_of_mem _ hd))
    constructor
    · show c ++ _ = _
      rw [ih1, List.flatten_cons, List.append_assoc]
    · exact ih2

/-- Claim C9: with every socket write succeeding and the file read as any
sequence of nonempty chunks of at most 8 KiB, the bytes the writer puts
on the connection are exactly the serialized header block, the file body
and a trailing CRLF, where the header block is the request line, then
Host, the fixed User-Agent, Accept-Encoding identity, Content-Type,
Content-Length equal to the file size, Content-MD5 (the digest of the
whole file), Date and Authorization in this order followed by a blank
line; a zero-byte file (no chunks) is the instance with Content-Length 0
and the digest of the empty byte sequence. -/
theorem claim_C9 (host accessKey secretKey bucket objName date : String)
    (digest : List Nat → String) (file : List Nat) (chunks : List (List Nat))
    (enableProgress : Bool) (wOk : Nat → Bool) (clock : Nat → Nat)
    (hjoin : chunks.flatten = file)
    (hck : ∀ c ∈ chunks, c ≠ [] ∧ c.length ≤ 8192)
    (hw : ∀ i, wOk i = true) :
    (putWriterRun host accessKey secretKey bucket objName date digest file
        chunks false enableProgress wOk clock).connBytes =
      strBytes (putHeaderString host bucket objName (digest file) date
        accessKey (putObjSignature secretKey date (digest file) bucket
          objName) file.length) ++ file ++ strBytes "\r\n"
    ∧ putHeaderString host bucket objName (digest file) date accessKey
        (putObjSignature secretKey date (digest file) bucket objName)
        file.length =
      "PUT /" ++ bucket ++ "/" ++ objName ++ " HTTP/1.1\r\n" ++
        "Host: " ++ host ++ "\r\n" ++
        "User-Agent: Go-http-client/1.1\r\n" ++
        "Accept-Encoding: identity\r\n" ++
        "Content-Type: " ++ "binary/octet-stream" ++ "\r\n" ++
        "Content-Length: " ++ toString file.length ++ "\r\n" ++
        "Content-MD5: " ++ digest file ++ "\r\n" ++
        "Date: " ++ date ++ "\r\n" ++
        "Authorization: AWS " ++ accessKey ++ ":" ++
          putObjSignature secretKey date (digest file) bucket objName ++
          "\r\n" ++ "\r\n"
    ∧ (putWriterRun host accessKey secretKey bucket objName date digest file
        chunks false enableProgress wOk clock).sends = [] := by
  unfold putWriterRun writerGo
  have hwn : ¬ (wOk 0 = false) := by simp [hw 0]
  rw [if_neg hwn]
  obtain ⟨h1, h2⟩ := writerLoop_success
    ⟨strBytes (putHeaderString host bucket objName (digest file) date
        accessKey (putObjSignature secretKey date (digest file) bucket
          objName) file.length),
      chunks, false, file.length, enableProgress, wOk, clock⟩
    rfl hw chunks 1 0 0 (fun c hc => (hck c hc).1)
  refine ⟨?_, rfl, ?_⟩
  · dsimp only
    rw [h1, hjoin, crlfBytes_eq, ← List.append_assoc]
  · dsimp only
    exact h2

/-- Claim C9, witness: the zero-byte upload — no chunks, Content-Length
0 and the digest of the empty byte sequence in Content-MD5. -/
theorem claim_C9_witness :
    (putWriterRun "h:80" "AK" "SK" "b" "o" "D" (fun _ => "1B2M2Y8A")
        ([] : List Nat) [] false false (fun _ => true)
        (fun _ => 1)).connBytes =
      strBytes (putHeaderString "h:80" "b" "o"
        ((fun (_ : List Nat) => "1B2M2Y8A") []) "D" "AK"
        (putObjSignature "SK" "D" ((fun (_ : List Nat) => "1B2M2Y8A") [])
          "b" "o") (List.length ([] : List Nat))) ++ ([] : List Nat) ++
        strBytes "\r\n" :=
  (claim_C9 "h:80" "AK" "SK" "b" "o" "D" (fun _ => "1B2M2Y8A") [] [] false
    (fun _ => true) (fun _ => 1) rfl (by simp) (fun _ => rfl)).1

/-! ### Claim C10 -/

/-- Claim C10: `GMTime` formats the host's local clock minus a fixed
eight hours, with a layout whose weekday field is the literal `Sat`: the
output always begins with `Sat, ` whatever the weekday of the formatted
instant, and the formatted instant equals true GMT exactly when the host
timezone offset is +8 hours. -/
theorem claim_C10 (breakdown : Int → GoTm) (nowUtc tzOffset : Int)
    (t : GoTm) (w : Nat) :
    (∃ rest, gmtimeModel breakdown nowUtc tzOffset = "Sat, " ++ rest)
    ∧ goFormatSatLayout { t with weekday := w } = goFormatSatLayout t
    ∧ (gmtimeInstant nowUtc tzOffset = nowUtc ↔ tzOffset = 8 * 3600)
    ∧ gmtimeInstant nowUtc tzOffset = nowUtc + tzOffset - 8 * 3600 := by
  refine ⟨?_, rfl, ?_, rfl⟩
  · have h : ∀ u : GoTm, goFormatSatLayout u =
        "Sat, " ++ (toString u.day ++ (" " ++ (monthAbbr u.month ++ (" " ++
          (toString u.year ++ (" " ++ (pad2 u.hour ++ (":" ++
          (pad2 u.minute ++ (":" ++ (pad2 u.sec ++ " GMT"))))))))))) := by
      intro u
      unfold goFormatSatLayout
      simp [String.append_assoc]
    exact ⟨_, h _⟩
  · unfold gmtimeInstant
    constructor
    · intro h
      omega
    · intro h
      omega

end Ceph
